import Mathlib

/-!
Verification of the gravatar-rs URL generator.

The development shallowly embeds `src/lib.rs` of the gravatar-rs crate:
the `Generator` configuration record, its builder-style setters,
`hash_email` (trim, lowercase, MD5, lowercase hex), `query_parameters`
(ordered `key=value` fragments with percent-encoding) and `generate`.

External dependencies of the crate are embedded by their documented
behaviour: `md5::compute` as the full MD5 algorithm over byte lists,
`urlencoding::encode` as percent-encoding of the UTF-8 bytes keeping
exactly ASCII alphanumerics and `-`, `.`, `_`, `~` unescaped (uppercase
hex escapes), and the std canonicalization primitives `str::trim` and
`str::to_lowercase` (the latter restricted to the ASCII case mapping,
which covers every concrete input appearing in this development).

Bytes are modelled as `Nat` with explicit `% 256` / `% 2 ^ 32` where the
Rust code relies on fixed-width arithmetic.
-/

set_option maxRecDepth 100000

/-- Concatenation of the images of `f` over a list (the shape of Rust's
byte-by-byte encoders). -/
def listFlat (f : α → List β) : List α → List β
  | [] => []
  | a :: as => f a ++ listFlat f as

/-- Little-endian byte rendering: `k` bytes of `n`, each reduced `% 256`. -/
def leBytes : Nat → Nat → List Nat
  | 0, _ => []
  | k + 1, n => n % 256 :: leBytes k (n / 256)

/-- UTF-8 encoding of a single character, by the code-point ranges of the
standard encoding. -/
def utf8EncodeChar (c : Char) : List Nat :=
  let n := c.toNat
  if n < 128 then [n]
  else if n < 2048 then [192 + n / 64, 128 + n % 64]
  else if n < 65536 then [224 + n / 4096, 128 + n / 64 % 64, 128 + n % 64]
  else [240 + n / 262144, 128 + n / 4096 % 64, 128 + n / 64 % 64, 128 + n % 64]

/-- UTF-8 byte sequence of a string (the bytes Rust's `String` stores). -/
def utf8Encode (s : String) : List Nat :=
  listFlat utf8EncodeChar s.data

/-- Bytes left unescaped by `urlencoding::encode`: ASCII alphanumerics and
`-`, `.`, `_`, `~`. -/
def isUrlSafe (b : Nat) : Bool :=
  (65 ≤ b && b ≤ 90) || (97 ≤ b && b ≤ 122) || (48 ≤ b && b ≤ 57) ||
    b == 45 || b == 46 || b == 95 || b == 126

/-- Uppercase hexadecimal digit for `n < 16`. -/
def hexUpperDigit (n : Nat) : Char :=
  if n < 10 then Char.ofNat (48 + n) else Char.ofNat (55 + n)

/-- Percent-encoding of one byte as `urlencoding::encode` emits it: safe
bytes verbatim, others as `%` plus two uppercase hex digits. -/
def encodeByte (b : Nat) : List Char :=
  if isUrlSafe b then [Char.ofNat b]
  else ['%', hexUpperDigit (b / 16), hexUpperDigit (b % 16)]

/-- Embedding of `urlencoding::encode`: percent-encode the UTF-8 bytes of
the string. -/
def urlencode (s : String) : String :=
  ⟨listFlat encodeByte (utf8Encode s)⟩

/-- Value of a hexadecimal digit character (either case), `none` otherwise. -/
def hexVal (c : Char) : Option Nat :=
  if 48 ≤ c.toNat ∧ c.toNat ≤ 57 then some (c.toNat - 48)
  else if 65 ≤ c.toNat ∧ c.toNat ≤ 70 then some (c.toNat - 55)
  else if 97 ≤ c.toNat ∧ c.toNat ≤ 102 then some (c.toNat - 87)
  else none

/-- Modelled from the spec: one percent-escape, two hexadecimal digits
read into a byte together with the unconsumed remainder. -/
def percentUnescape : List Char → Option (Nat × List Char)
  | c1 :: c2 :: rest =>
    (hexVal c1).bind fun h => (hexVal c2).map fun l => (16 * h + l, rest)
  | _ => none

/-- Modelled from the spec: one step of standard percent-decoding (`%XY`
becomes the byte with hex value `XY`, any other character stands for its
own code point), returning the byte and the unconsumed remainder. The
crate itself ships no decoder; the spec's round-trip property quantifies
over this standard routine. -/
def percentDecodeStep : List Char → Option (Nat × List Char)
  | [] => none
  | c :: rest => if c = '%' then percentUnescape rest else some (c.toNat, rest)

/-- Iteration of `percentDecodeStep`; the fuel bounds the recursion and
the input length is always enough. -/
def percentDecodeLoop : Nat → List Char → Option (List Nat)
  | _, [] => some []
  | 0, _ :: _ => none
  | fuel + 1, c :: rest =>
    match percentDecodeStep (c :: rest) with
    | some (b, rest2) => (percentDecodeLoop fuel rest2).map fun bs => b :: bs
    | none => none

/-- Modelled from the spec: standard percent-decoding of a text into its
byte sequence. -/
def percentDecodeBytes (cs : List Char) : Option (List Nat) :=
  percentDecodeLoop cs.length cs

/-- Accumulation of `k` UTF-8 continuation bytes onto the value `v`. -/
def utf8Cont : Nat → Nat → List Nat → Option (Nat × List Nat)
  | v, 0, bs => some (v, bs)
  | _, _ + 1, [] => none
  | v, k + 1, b :: rest =>
    if 128 ≤ b && b < 192 then utf8Cont (v * 64 + (b - 128)) k rest else none

/-- Modelled from the spec: one step of standard UTF-8 decoding by the
leading-byte ranges, returning the code point and the unconsumed
remainder. -/
def utf8DecodeStep : List Nat → Option (Nat × List Nat)
  | [] => none
  | b0 :: rest =>
    if b0 < 128 then some (b0, rest)
    else if b0 < 192 then none
    else if b0 < 224 then utf8Cont (b0 - 192) 1 rest
    else if b0 < 240 then utf8Cont (b0 - 224) 2 rest
    else utf8Cont (b0 - 240) 3 rest

/-- Iteration of `utf8DecodeStep`; the fuel bounds the recursion and the
input length is always enough. -/
def utf8DecodeLoop : Nat → List Nat → Option (List Char)
  | _, [] => some []
  | 0, _ :: _ => none
  | fuel + 1, b :: rest =>
    match utf8DecodeStep (b :: rest) with
    | some (n, rest2) => (utf8DecodeLoop fuel rest2).map fun cs => Char.ofNat n :: cs
    | none => none

/-- Modelled from the spec: UTF-8 decoding of a byte sequence back into
characters; used to state the round-trip property at the string level. -/
def utf8Decode (bs : List Nat) : Option (List Char) :=
  utf8DecodeLoop bs.length bs

/-- Modelled from the spec: standard percent-decoding of a text back into
a text (percent-decode to bytes, then UTF-8 decode). -/
def percentDecodeString (s : String) : Option String :=
  (percentDecodeBytes s.data).bind fun bs => (utf8Decode bs).map fun cs => ⟨cs⟩

/-- Decimal digits of a natural number, most significant first; `fuel`
bounds the recursion depth and any `fuel > 0` with `n < 10 ^ fuel` is
enough. -/
def natDecAux : Nat → Nat → List Char
  | 0, _ => []
  | fuel + 1, n =>
    if n < 10 then [Nat.digitChar n]
    else natDecAux fuel (n / 10) ++ [Nat.digitChar (n % 10)]

/-- Decimal rendering of a natural number. -/
def natDec (n : Nat) : String :=
  ⟨natDecAux (n + 1) n⟩

/-- Decimal rendering of an integer, as Rust's `i32` `Display` prints it:
a `-` sign for negative values, then the decimal digits. -/
def intDec : Int → String
  | Int.ofNat m => natDec m
  | Int.negSucc m => "-" ++ natDec (m + 1)

/-- Per-round shift amounts of MD5. -/
def md5S : List Nat :=
  [7, 12, 17, 22, 7, 12, 17, 22, 7, 12, 17, 22, 7, 12, 17, 22,
   5, 9, 14, 20, 5, 9, 14, 20, 5, 9, 14, 20, 5, 9, 14, 20,
   4, 11, 16, 23, 4, 11, 16, 23, 4, 11, 16, 23, 4, 11, 16, 23,
   6, 10, 15, 21, 6, 10, 15, 21, 6, 10, 15, 21, 6, 10, 15, 21]

/-- Per-round additive constants of MD5. -/
def md5K : List Nat :=
  [3614090360, 3905402710, 606105819, 3250441966, 4118548399, 1200080426,
   2821735955, 4249261313, 1770035416, 2336552879, 4294925233, 2304563134,
   1804603682, 4254626195, 2792965006, 1236535329, 4129170786, 3225465664,
   643717713, 3921069994, 3593408605, 38016083, 3634488961, 3889429448,
   568446438, 3275163606, 4107603335, 1163531501, 2850285829, 4243563512,
   1735328473, 2368359562, 4294588738, 2272392833, 1839030562, 4259657740,
   2763975236, 1272893353, 4139469664, 3200236656, 681279174, 3936430074,
   3572445317, 76029189, 3654602809, 3873151461, 530742520, 3299628645,
   4096336452, 1126891415, 2878612391, 4237533241, 1700485571, 2399980690,
   4293915773, 2240044497, 1873313359, 4264355552, 2734768916, 1309151649,
   4149444226, 3174756917, 718787259, 3951481745]

/-- MD5 padding: a `0x80` byte, zeros up to 56 mod 64, then the bit length
as eight little-endian bytes. -/
def md5Pad (msg : List Nat) : List Nat :=
  msg ++ 128 :: List.replicate ((119 - msg.length % 64) % 64) 0 ++
    leBytes 8 (msg.length * 8)

/-- Little-endian grouping of bytes into 32-bit words. -/
def toWords : List Nat → List Nat
  | b0 :: b1 :: b2 :: b3 :: rest =>
    (b0 + 256 * b1 + 65536 * b2 + 16777216 * b3) :: toWords rest
  | _ => []

/-- Groups of sixteen words; `fuel` bounds the recursion and the word-list
length is always enough. -/
def chunks16 : Nat → List Nat → List (List Nat)
  | 0, _ => []
  | _, [] => []
  | fuel + 1, ws => ws.take 16 :: chunks16 fuel (ws.drop 16)

/-- Round mixing function of MD5 (the per-quarter `F`, `G`, `H`, `I`);
complement is exclusive-or with the 32-bit all-ones mask. -/
def md5F (i b c d : Nat) : Nat :=
  if i < 16 then (b &&& c) ||| ((b ^^^ 4294967295) &&& d)
  else if i < 32 then (d &&& b) ||| ((d ^^^ 4294967295) &&& c)
  else if i < 48 then b ^^^ c ^^^ d
  else c ^^^ (b ||| (d ^^^ 4294967295))

/-- Message-word index used in round `i` of MD5. -/
def md5G (i : Nat) : Nat :=
  if i < 16 then i
  else if i < 32 then (5 * i + 1) % 16
  else if i < 48 then (3 * i + 5) % 16
  else (7 * i) % 16

/-- Left rotation of a 32-bit value. -/
def rotl32 (x n : Nat) : Nat :=
  ((x <<< n) ||| (x >>> (32 - n))) % 4294967296

/-- One round of the MD5 compression function on state `(a, b, c, d)`. -/
def md5Round (M : List Nat) (st : Nat × Nat × Nat × Nat) (i : Nat) :
    Nat × Nat × Nat × Nat :=
  let f := (md5F i st.2.1 st.2.2.1 st.2.2.2 + st.1 + md5K.getD i 0 +
    M.getD (md5G i) 0) % 4294967296
  (st.2.2.2, (st.2.1 + rotl32 f (md5S.getD i 0)) % 4294967296, st.2.1, st.2.2.1)

/-- MD5 compression of one sixteen-word block into the running state. -/
def md5Block (st : Nat × Nat × Nat × Nat) (M : List Nat) :
    Nat × Nat × Nat × Nat :=
  let r := (List.range 64).foldl (md5Round M) st
  ((st.1 + r.1) % 4294967296, (st.2.1 + r.2.1) % 4294967296,
   (st.2.2.1 + r.2.2.1) % 4294967296, (st.2.2.2 + r.2.2.2) % 4294967296)

/-- Embedding of `md5::compute`: the sixteen digest bytes of a byte
sequence. -/
def md5 (msg : List Nat) : List Nat :=
  let ws := toWords (md5Pad msg)
  let r := (chunks16 ws.length ws).foldl md5Block
    (1732584193, 4023233417, 2562383102, 271733878)
  leBytes 4 r.1 ++ leBytes 4 r.2.1 ++ leBytes 4 r.2.2.1 ++ leBytes 4 r.2.2.2

/-- Two lowercase hexadecimal digits of a byte. -/
def hexByteChars (b : Nat) : List Char :=
  [Nat.digitChar (b / 16), Nat.digitChar (b % 16)]

/-- Lowercase hexadecimal rendering of a byte sequence, as Rust's
`format ("x")` prints an `md5::Digest`. -/
def bytesToHexLower (bs : List Nat) : String :=
  ⟨listFlat hexByteChars bs⟩

/-- Characters Rust's `str::trim` strips: the Unicode white-space set
tested by `char::is_whitespace`. -/
def rustIsWhitespace (c : Char) : Bool :=
  let n := c.toNat
  (9 ≤ n && n ≤ 13) || n == 32 || n == 133 || n == 160 || n == 5760 ||
    (8192 ≤ n && n ≤ 8202) || n == 8232 || n == 8233 || n == 8239 ||
    n == 8287 || n == 12288

/-- Embedding of `str::trim`: drop leading and trailing white space. -/
def rustTrim (s : String) : String :=
  ⟨((s.data.dropWhile rustIsWhitespace).reverse.dropWhile rustIsWhitespace).reverse⟩

/-- Lowercase mapping of one character, modelling `char::to_lowercase`
restricted to the ASCII range (the only range exercised by the concrete
inputs of this development). -/
def rustCharToLower (c : Char) : Char :=
  if 65 ≤ c.toNat ∧ c.toNat ≤ 90 then Char.ofNat (c.toNat + 32) else c

/-- Embedding of `str::to_lowercase` over the modelled case mapping. -/
def rustToLowercase (s : String) : String :=
  ⟨s.data.map rustCharToLower⟩

/-- Embedding of the `Generator` configuration record of gravatar-rs. -/
structure Generator where
  base_url : String
  default_image : Option String
  force_default : Bool
  image_size : Option Int
  include_file_extension : Bool
  rating : Option String
deriving DecidableEq, Repr

/-- Embedding of `Generator::default`. -/
def Generator.default : Generator where
  base_url := "www.gravatar.com"
  default_image := none
  force_default := false
  image_size := none
  include_file_extension := false
  rating := none

/-- Embedding of `Generator::hash_email`: trim, lowercase, MD5 over the
UTF-8 bytes, lowercase hex rendering. -/
def Generator.hash_email (email : String) : String :=
  bytesToHexLower (md5 (utf8Encode (rustToLowercase (rustTrim email))))

/-- Fragment list built by `Generator::query_parameters` (the `vec` of
`key=value` pieces, pushed in source order). -/
def Generator.queryFragments (g : Generator) : List String :=
  let qp : List String := []
  let qp := match g.default_image with
    | some default_image => qp ++ ["d=" ++ urlencode default_image]
    | none => qp
  let qp := if g.force_default then qp ++ ["f=y"] else qp
  let qp := match g.image_size with
    | some image_size => qp ++ ["s=" ++ urlencode (intDec image_size)]
    | none => qp
  match g.rating with
  | some rating => qp ++ ["r=" ++ urlencode rating]
  | none => qp

/-- Embedding of `Generator::query_parameters`: empty when no fragment
applies, otherwise `?` followed by the fragments joined with `&`. -/
def Generator.query_parameters (g : Generator) : String :=
  let qp := g.queryFragments
  if qp.isEmpty then "" else "?" ++ String.intercalate "&" qp

/-- Embedding of `Generator::generate`. -/
def Generator.generate (g : Generator) (email : String) : String :=
  "https://" ++ g.base_url ++ "/avatar/" ++ Generator.hash_email email ++
    (if g.include_file_extension then ".jpg" else "") ++ g.query_parameters

/-- Embedding of `Generator::set_base_url`. -/
def Generator.set_base_url (g : Generator) (base_url : String) : Generator :=
  { g with base_url := base_url }

/-- Embedding of `Generator::set_default_image`. -/
def Generator.set_default_image (g : Generator) (default_image : String) : Generator :=
  { g with default_image := some default_image }

/-- Embedding of `Generator::set_force_default`. -/
def Generator.set_force_default (g : Generator) (force_default : Bool) : Generator :=
  { g with force_default := force_default }

/-- Embedding of `Generator::set_image_size`; `i32` values are modelled as
integers. -/
def Generator.set_image_size (g : Generator) (image_size : Int) : Generator :=
  { g with image_size := some image_size }

/-- Embedding of `Generator::set_include_file_extension`. -/
def Generator.set_include_file_extension (g : Generator) (include_file_extension : Bool) :
    Generator :=
  { g with include_file_extension := include_file_extension }

/-- Embedding of `Generator::set_rating`. -/
def Generator.set_rating (g : Generator) (rating : String) : Generator :=
  { g with rating := some rating }

/-- One builder call, for reasoning about arbitrary configuration
sequences. -/
inductive ConfigStep where
  | stepBaseUrl (s : String)
  | stepDefaultImage (s : String)
  | stepForceDefault (b : Bool)
  | stepImageSize (n : Int)
  | stepIncludeFileExtension (b : Bool)
  | stepRating (s : String)
deriving DecidableEq, Repr

/-- Application of one builder call to a configuration. -/
def applyStep (g : Generator) : ConfigStep → Generator
  | ConfigStep.stepBaseUrl s => g.set_base_url s
  | ConfigStep.stepDefaultImage s => g.set_default_image s
  | ConfigStep.stepForceDefault b => g.set_force_default b
  | ConfigStep.stepImageSize n => g.set_image_size n
  | ConfigStep.stepIncludeFileExtension b => g.set_include_file_extension b
  | ConfigStep.stepRating s => g.set_rating s

/-- Application of a sequence of builder calls, first call first. -/
def applySteps (g : Generator) (steps : List ConfigStep) : Generator :=
  steps.foldl applyStep g

/-- Whether one builder call keeps a nonempty base URL: every call does,
except `set_base_url` with the empty string. -/
def stepKeepsBaseUrl : ConfigStep → Bool
  | ConfigStep.stepBaseUrl s => !(s == "")
  | _ => true

/-! ### Helper lemmas -/

theorem listFlat_append (f : α → List β) (l1 l2 : List α) :
    listFlat f (l1 ++ l2) = listFlat f l1 ++ listFlat f l2 := by
  induction l1 with
  | nil => rfl
  | cons a as ih => simp [listFlat, ih]

theorem mem_listFlat {f : α → List β} {b : β} {l : List α} :
    b ∈ listFlat f l ↔ ∃ a ∈ l, b ∈ f a := by
  induction l with
  | nil => simp [listFlat]
  | cons a as ih => simp [listFlat, ih]

theorem leBytes_length (k n : Nat) : (leBytes k n).length = k := by
  induction k generalizing n with
  | zero => rfl
  | succ k ih => simp [leBytes, ih]

theorem leBytes_lt_256 (k n : Nat) : ∀ b ∈ leBytes k n, b < 256 := by
  induction k generalizing n with
  | zero => simp [leBytes]
  | succ k ih =>
    intro b hb
    rcases List.mem_cons.mp hb with h | h
    · exact h ▸ Nat.mod_lt _ (by omega)
    · exact ih _ b h

/-! ### Theorems for the claims -/

/-- C1: for every configuration and email, `generate` returns exactly the
concatenation of `https://`, the base URL, `/avatar/`, the email hash, the
literal `.jpg` when `include_file_extension` is set (otherwise nothing),
and the query parameter string. -/
theorem c1_generate_concatenation (g : Generator) (email : String) :
    g.generate email =
      "https://" ++ g.base_url ++ "/avatar/" ++ Generator.hash_email email ++
        (if g.include_file_extension then ".jpg" else "") ++
        g.query_parameters := rfl

/-- C2: `query_parameters` builds the fragments `d=`, `f=y`, `s=`, `r=` in
exactly that order, each only when its source field is present or true; the
result is empty when no fragment applies and otherwise `?` followed by the
fragments joined with `&`. -/
theorem c2_query_parameters_order (g : Generator) :
    g.query_parameters =
      (let frags :=
        (match g.default_image with
          | some d => ["d=" ++ urlencode d]
          | none => []) ++
        (if g.force_default then ["f=y"] else []) ++
        (match g.image_size with
          | some n => ["s=" ++ urlencode (intDec n)]
          | none => []) ++
        (match g.rating with
          | some r => ["r=" ++ urlencode r]
          | none => []);
      if frags = [] then "" else "?" ++ String.intercalate "&" frags) := by
  rcases g with ⟨u, di, fd, sz, fe, rt⟩
  cases di <;> cases fd <;> cases sz <;> cases rt <;> rfl

/-- C3: two inputs that agree after trimming surrounding white space and
lowercasing have the same email hash. -/
theorem c3_hash_email_canonicalization (a b : String)
    (h : rustToLowercase (rustTrim a) = rustToLowercase (rustTrim b)) :
    Generator.hash_email a = Generator.hash_email b := by
  unfold Generator.hash_email
  rw [h]

/-- Witness for C3 at inputs differing in white space and casing. -/
theorem c3_hash_email_canonicalization_witness :
    rustToLowercase (rustTrim "  ME@Bauke.xyz ") =
      rustToLowercase (rustTrim "me@bauke.xyz") ∧
    Generator.hash_email "  ME@Bauke.xyz " = Generator.hash_email "me@bauke.xyz" :=
  ⟨by decide, c3_hash_email_canonicalization _ _ (by decide)⟩

/-- C5 counterexample: `set_base_url` performs no validation, so the empty
string reaches `base_url` and the claimed invariant fails on the code. -/
theorem c5_counterexample :
    (applySteps Generator.default [ConfigStep.stepBaseUrl ""]).base_url = "" := by
  decide

/-- Auxiliary invariant for C5: a sequence of builder calls that never sets
an empty base URL preserves nonemptiness of `base_url`. -/
theorem applySteps_base_url_nonempty (steps : List ConfigStep) :
    ∀ g : Generator, steps.all stepKeepsBaseUrl = true → g.base_url ≠ "" →
      (applySteps g steps).base_url ≠ "" := by
  induction steps with
  | nil => exact fun g _ hg => hg
  | cons s rest ih =>
    intro g hall hg
    rw [List.all_cons, Bool.and_eq_true] at hall
    refine ih (applyStep g s) hall.2 ?_
    cases s with
    | stepBaseUrl t =>
      have := hall.1
      simp only [stepKeepsBaseUrl, Bool.not_eq_true', beq_eq_false_iff_ne] at this
      exact this
    | stepDefaultImage t => exact hg
    | stepForceDefault b => exact hg
    | stepImageSize n => exact hg
    | stepIncludeFileExtension b => exact hg
    | stepRating t => exact hg

/-- C5 amended: starting from the default configuration, `base_url` stays
nonempty under every sequence of builder calls that never passes the empty
string to `set_base_url`. -/
theorem c5_base_url_nonempty (steps : List ConfigStep)
    (h : steps.all stepKeepsBaseUrl = true) :
    (applySteps Generator.default steps).base_url ≠ "" :=
  applySteps_base_url_nonempty steps Generator.default h (by decide)

/-- Witness for the amended C5 on a concrete builder sequence. -/
theorem c5_base_url_nonempty_witness :
    (applySteps Generator.default
      [ConfigStep.stepDefaultImage "identicon",
       ConfigStep.stepBaseUrl "cdn.libravatar.org"]).base_url ≠ "" :=
  c5_base_url_nonempty _ (by decide)

/-- C6: each builder call replaces exactly its targeted field (wrapping the
optional ones in `some`) and leaves the other five fields of the
configuration unchanged. -/
theorem c6_setters_frame (g : Generator) (u t : String) (b e : Bool)
    (n : Int) (r : String) :
    ((g.set_base_url u).base_url = u ∧
      ((g.set_base_url u).default_image, (g.set_base_url u).force_default,
        (g.set_base_url u).image_size, (g.set_base_url u).include_file_extension,
        (g.set_base_url u).rating) =
      (g.default_image, g.force_default, g.image_size,
        g.include_file_extension, g.rating)) ∧
    ((g.set_default_image t).default_image = some t ∧
      ((g.set_default_image t).base_url, (g.set_default_image t).force_default,
        (g.set_default_image t).image_size,
        (g.set_default_image t).include_file_extension,
        (g.set_default_image t).rating) =
      (g.base_url, g.force_default, g.image_size,
        g.include_file_extension, g.rating)) ∧
    ((g.set_force_default b).force_default = b ∧
      ((g.set_force_default b).base_url, (g.set_force_default b).default_image,
        (g.set_force_default b).image_size,
        (g.set_force_default b).include_file_extension,
        (g.set_force_default b).rating) =
      (g.base_url, g.default_image, g.image_size,
        g.include_file_extension, g.rating)) ∧
    ((g.set_image_size n).image_size = some n ∧
      ((g.set_image_size n).base_url, (g.set_image_size n).default_image,
        (g.set_image_size n).force_default,
        (g.set_image_size n).include_file_extension,
        (g.set_image_size n).rating) =
      (g.base_url, g.default_image, g.force_default,
        g.include_file_extension, g.rating)) ∧
    ((g.set_include_file_extension e).include_file_extension = e ∧
      ((g.set_include_file_extension e).base_url,
        (g.set_include_file_extension e).default_image,
        (g.set_include_file_extension e).force_default,
        (g.set_include_file_extension e).image_size,
        (g.set_include_file_extension e).rating) =
      (g.base_url, g.default_image, g.force_default,
        g.image_size, g.rating)) ∧
    ((g.set_rating r).rating = some r ∧
      ((g.set_rating r).base_url, (g.set_rating r).default_image,
        (g.set_rating r).force_default, (g.set_rating r).image_size,
        (g.set_rating r).include_file_extension) =
      (g.base_url, g.default_image, g.force_default,
        g.image_size, g.include_file_extension)) :=
  ⟨⟨rfl, rfl⟩, ⟨rfl, rfl⟩, ⟨rfl, rfl⟩, ⟨rfl, rfl⟩, ⟨rfl, rfl⟩, ⟨rfl, rfl⟩⟩

/-- C9: with all optional fields set as in the spec's literal vector, the
generated URL for `me@bauke.xyz` is exactly the documented string. -/
theorem c9_all_options_url :
    (Generator.default.set_default_image "identicon" |>.set_force_default true
      |>.set_image_size 128 |>.set_include_file_extension true
      |>.set_rating "pg").generate "me@bauke.xyz" =
    "https://www.gravatar.com/avatar/ecd836ee843ff0ab75d4720bd40c2baf.jpg?d=identicon&f=y&s=128&r=pg" := by
  decide

/-- Digest shape of MD5: four little-endian 32-bit state words. -/
theorem md5_shape (msg : List Nat) :
    ∃ a b c d, md5 msg = leBytes 4 a ++ leBytes 4 b ++ leBytes 4 c ++ leBytes 4 d :=
  ⟨_, _, _, _, rfl⟩

theorem md5_length (msg : List Nat) : (md5 msg).length = 16 := by
  obtain ⟨a, b, c, d, h⟩ := md5_shape msg
  simp [h, leBytes_length]

theorem md5_lt_256 (msg : List Nat) : ∀ b ∈ md5 msg, b < 256 := by
  obtain ⟨a, b, c, d, h⟩ := md5_shape msg
  rw [h]
  intro x hx
  simp only [List.mem_append] at hx
  rcases hx with ((h1 | h1) | h1) | h1 <;> exact leBytes_lt_256 _ _ x h1

/-- Character set of the claim: a digit in the range 0-9 or a letter in
the range a-f. -/
def isLowerHexDigit (c : Char) : Bool :=
  (48 ≤ c.toNat && c.toNat ≤ 57) || (97 ≤ c.toNat && c.toNat ≤ 102)

theorem digitChar_mem_hex : ∀ n < 16, isLowerHexDigit (Nat.digitChar n) = true := by
  decide

theorem hexByteChars_mem_hex (b : Nat) (hb : b < 256) :
    ∀ c ∈ hexByteChars b, isLowerHexDigit c = true := by
  intro c hc
  rcases List.mem_cons.mp hc with h | h
  · exact h ▸ digitChar_mem_hex (b / 16) (by omega)
  · rcases List.mem_cons.mp h with h2 | h2
    · exact h2 ▸ digitChar_mem_hex (b % 16) (by omega)
    · simp at h2

theorem bytesToHexLower_length (bs : List Nat) :
    (bytesToHexLower bs).length = 2 * bs.length := by
  show (listFlat hexByteChars bs).length = 2 * bs.length
  induction bs with
  | nil => rfl
  | cons b l ih =>
    simp only [listFlat, List.length_append, List.length_cons, ih, hexByteChars,
      List.length_nil]
    omega

theorem bytesToHexLower_mem (bs : List Nat) (hb : ∀ b ∈ bs, b < 256) :
    ∀ c ∈ (bytesToHexLower bs).data, isLowerHexDigit c = true := by
  intro c hc
  obtain ⟨b, hbmem, hcb⟩ := mem_listFlat.mp hc
  exact hexByteChars_mem_hex b (hb b hbmem) c hcb

/-- C4: for every input, `hash_email` returns exactly 32 characters, each a
lowercase hexadecimal digit. -/
theorem c4_hash_email_hex (s : String) :
    (Generator.hash_email s).length = 32 ∧
    ∀ c ∈ (Generator.hash_email s).data, isLowerHexDigit c = true := by
  constructor
  · rw [show Generator.hash_email s =
      bytesToHexLower (md5 (utf8Encode (rustToLowercase (rustTrim s)))) from rfl,
      bytesToHexLower_length, md5_length]
  · exact bytesToHexLower_mem _ (md5_lt_256 _)

/-- Witness for C4 at a concrete email and digest character. -/
theorem c4_hash_email_hex_witness :
    (Generator.hash_email "me@bauke.xyz").length = 32 ∧ isLowerHexDigit 'e' = true :=
  ⟨(c4_hash_email_hex "me@bauke.xyz").1,
   (c4_hash_email_hex "me@bauke.xyz").2 'e' (by decide)⟩

/-- Digits produced by the decimal renderer. -/
theorem natDecAux_chars (fuel n : Nat) :
    ∀ c ∈ natDecAux fuel n, ∃ k, k < 10 ∧ c = Nat.digitChar k := by
  induction fuel generalizing n with
  | zero => simp [natDecAux]
  | succ fuel ih =>
    intro c hc
    by_cases h : n < 10
    · simp only [natDecAux, if_pos h, List.mem_singleton] at hc
      exact ⟨n, h, hc⟩
    · simp only [natDecAux, if_neg h, List.mem_append, List.mem_singleton] at hc
      rcases hc with h1 | h1
      · exact ih _ c h1
      · exact ⟨n % 10, by omega, h1⟩

theorem intDec_chars (n : Int) :
    ∀ c ∈ (intDec n).data, c = '-' ∨ ∃ k, k < 10 ∧ c = Nat.digitChar k := by
  cases n with
  | ofNat m => exact fun c hc => Or.inr (natDecAux_chars _ _ c hc)
  | negSucc m =>
    intro c hc
    rw [show intDec (Int.negSucc m) = "-" ++ natDec (m + 1) from rfl,
      String.data_append] at hc
    rcases List.mem_append.mp hc with h | h
    · exact Or.inl (List.mem_singleton.mp h)
    · exact Or.inr (natDecAux_chars _ _ c h)

theorem digitChar_safe :
    ∀ k < 10, (Nat.digitChar k).toNat < 128 ∧ isUrlSafe (Nat.digitChar k).toNat = true := by
  decide

theorem utf8EncodeChar_ascii (c : Char) (h : c.toNat < 128) :
    utf8EncodeChar c = [c.toNat] := by
  simp [utf8EncodeChar, h]

theorem encodeByte_safe (b : Nat) (h : isUrlSafe b = true) :
    encodeByte b = [Char.ofNat b] := by
  simp [encodeByte, h]

/-- Encoding is the identity on strings of unescaped ASCII characters. -/
theorem urlencode_safe (s : String)
    (h : ∀ c ∈ s.data, c.toNat < 128 ∧ isUrlSafe c.toNat = true) :
    urlencode s = s := by
  obtain ⟨cs⟩ := s
  refine String.ext ?_
  show listFlat encodeByte (listFlat utf8EncodeChar cs) = cs
  induction cs with
  | nil => rfl
  | cons c rest ih =>
    have hc := h c (List.mem_cons_self c rest)
    have hrest : ∀ x ∈ rest, x.toNat < 128 ∧ isUrlSafe x.toNat = true :=
      fun x hx => h x (List.mem_cons_of_mem c hx)
    show listFlat encodeByte (utf8EncodeChar c ++ listFlat utf8EncodeChar rest) = c :: rest
    rw [utf8EncodeChar_ascii c hc.1, listFlat_append]
    simp only [listFlat, List.append_nil]
    rw [encodeByte_safe _ hc.2, Char.ofNat_toNat, ih hrest]
    rfl

/-- Decimal renderings are left unchanged by the percent encoder. -/
theorem urlencode_intDec (n : Int) : urlencode (intDec n) = intDec n := by
  refine urlencode_safe _ ?_
  intro c hc
  rcases intDec_chars n c hc with h | ⟨k, hk, hck⟩
  · subst h
    exact ⟨by decide, by decide⟩
  · subst hck
    exact digitChar_safe k hk

/-- C8: `set_image_size` accepts every 32-bit integer without validation,
and the query fragment list then contains `s=` followed by the decimal
rendering of the value unchanged (the encoder escapes nothing in it). -/
theorem c8_image_size_unvalidated (g : Generator) (n : Int)
    (_h1 : -2147483648 ≤ n) (_h2 : n < 2147483648) :
    (g.set_image_size n).image_size = some n ∧
    urlencode (intDec n) = intDec n ∧
    "s=" ++ intDec n ∈ (g.set_image_size n).queryFragments := by
  refine ⟨rfl, urlencode_intDec n, ?_⟩
  rcases g with ⟨u, di, fd, sz, fe, rt⟩
  cases di <;> cases fd <;> cases rt <;>
    simp [Generator.queryFragments, Generator.set_image_size, urlencode_intDec n]

/-- Witness for C8 at a negative size. -/
theorem c8_image_size_unvalidated_witness :
    (Generator.default.set_image_size (-1)).image_size = some (-1) ∧
    urlencode (intDec (-1)) = intDec (-1) ∧
    "s=" ++ intDec (-1) ∈ (Generator.default.set_image_size (-1)).queryFragments :=
  c8_image_size_unvalidated Generator.default (-1) (by decide) (by decide)

theorem charToNat_ofNat_valid (n : Nat) (h : n.isValidChar) :
    (Char.ofNat n).toNat = n := by
  simp only [Char.ofNat, dif_pos h, Char.ofNatAux, Char.toNat, UInt32.toNat]
  simp [BitVec.toNat_ofNatLt]

theorem charToNat_ofNat_small (n : Nat) (h : n < 55296) :
    (Char.ofNat n).toNat = n :=
  charToNat_ofNat_valid n (Or.inl h)

theorem char_toNat_lt (c : Char) : c.toNat < 1114112 := by
  show c.val.toNat < 1114112
  rcases c.valid with h | ⟨h1, h2⟩
  · omega
  · omega

theorem isUrlSafe_lt_128 (b : Nat) (h : isUrlSafe b = true) : b < 128 := by
  simp only [isUrlSafe, Bool.or_eq_true, Bool.and_eq_true, decide_eq_true_eq,
    beq_iff_eq] at h
  omega

theorem hexVal_hexUpperDigit : ∀ x < 16, hexVal (hexUpperDigit x) = some x := by
  decide

theorem utf8EncodeChar_two (c : Char) (h1 : ¬ c.toNat < 128) (h2 : c.toNat < 2048) :
    utf8EncodeChar c = [192 + c.toNat / 64, 128 + c.toNat % 64] := by
  simp [utf8EncodeChar, h1, h2]

theorem utf8EncodeChar_three (c : Char) (h2 : ¬ c.toNat < 2048) (h3 : c.toNat < 65536) :
    utf8EncodeChar c = [224 + c.toNat / 4096, 128 + c.toNat / 64 % 64, 128 + c.toNat % 64] := by
  have h1 : ¬ c.toNat < 128 := by omega
  simp [utf8EncodeChar, h1, h2, h3]

theorem utf8EncodeChar_four (c : Char) (h3 : ¬ c.toNat < 65536) :
    utf8EncodeChar c =
      [240 + c.toNat / 262144, 128 + c.toNat / 4096 % 64, 128 + c.toNat / 64 % 64,
        128 + c.toNat % 64] := by
  have h1 : ¬ c.toNat < 128 := by omega
  have h2 : ¬ c.toNat < 2048 := by omega
  simp [utf8EncodeChar, h1, h2, h3]

theorem utf8EncodeChar_lt_256 (c : Char) : ∀ b ∈ utf8EncodeChar c, b < 256 := by
  have hlt := char_toNat_lt c
  intro b hb
  by_cases h1 : c.toNat < 128
  · rw [utf8EncodeChar_ascii c h1] at hb
    simp only [List.mem_singleton] at hb
    omega
  · by_cases h2 : c.toNat < 2048
    · rw [utf8EncodeChar_two c h1 h2] at hb
      simp only [List.mem_cons, List.not_mem_nil, or_false] at hb
      rcases hb with h | h <;> omega
    · by_cases h3 : c.toNat < 65536
      · rw [utf8EncodeChar_three c h2 h3] at hb
        simp only [List.mem_cons, List.not_mem_nil, or_false] at hb
        rcases hb with h | h | h <;> omega
      · rw [utf8EncodeChar_four c h3] at hb
        simp only [List.mem_cons, List.not_mem_nil, or_false] at hb
        rcases hb with h | h | h | h <;> omega

theorem utf8DecodeStep_one (n : Nat) (h : n < 128) (rest : List Nat) :
    utf8DecodeStep (n :: rest) = some (n, rest) := by
  rw [utf8DecodeStep, if_pos h]

theorem utf8DecodeStep_two (n : Nat) (h1 : 128 ≤ n) (h2 : n < 2048) (rest : List Nat) :
    utf8DecodeStep ((192 + n / 64) :: (128 + n % 64) :: rest) = some (n, rest) := by
  have e1 : ¬ (192 + n / 64 < 128) := by omega
  have e2 : ¬ (192 + n / 64 < 192) := by omega
  have e3 : 192 + n / 64 < 224 := by omega
  have g1 : (128 ≤ 128 + n % 64 && 128 + n % 64 < 192) = true := by
    simp only [Bool.and_eq_true, decide_eq_true_eq]
    omega
  have harg : (192 + n / 64 - 192) * 64 + (128 + n % 64 - 128) = n := by omega
  rw [utf8DecodeStep, if_neg e1, if_neg e2, if_pos e3, utf8Cont, if_pos g1, utf8Cont, harg]

theorem utf8DecodeStep_three (n : Nat) (h1 : 2048 ≤ n) (h2 : n < 65536) (rest : List Nat) :
    utf8DecodeStep ((224 + n / 4096) :: (128 + n / 64 % 64) :: (128 + n % 64) :: rest) =
      some (n, rest) := by
  have e1 : ¬ (224 + n / 4096 < 128) := by omega
  have e2 : ¬ (224 + n / 4096 < 192) := by omega
  have e3 : ¬ (224 + n / 4096 < 224) := by omega
  have e4 : 224 + n / 4096 < 240 := by omega
  have g1 : (128 ≤ 128 + n / 64 % 64 && 128 + n / 64 % 64 < 192) = true := by
    simp only [Bool.and_eq_true, decide_eq_true_eq]
    omega
  have g2 : (128 ≤ 128 + n % 64 && 128 + n % 64 < 192) = true := by
    simp only [Bool.and_eq_true, decide_eq_true_eq]
    omega
  have harg : ((224 + n / 4096 - 224) * 64 + (128 + n / 64 % 64 - 128)) * 64 +
      (128 + n % 64 - 128) = n := by omega
  rw [utf8DecodeStep, if_neg e1, if_neg e2, if_neg e3, if_pos e4, utf8Cont, if_pos g1,
    utf8Cont, if_pos g2, utf8Cont, harg]

theorem utf8DecodeStep_four (n : Nat) (h1 : 65536 ≤ n) (h2 : n < 1114112) (rest : List Nat) :
    utf8DecodeStep ((240 + n / 262144) :: (128 + n / 4096 % 64) :: (128 + n / 64 % 64) ::
      (128 + n % 64) :: rest) = some (n, rest) := by
  have e1 : ¬ (240 + n / 262144 < 128) := by omega
  have e2 : ¬ (240 + n / 262144 < 192) := by omega
  have e3 : ¬ (240 + n / 262144 < 224) := by omega
  have e4 : ¬ (240 + n / 262144 < 240) := by omega
  have g1 : (128 ≤ 128 + n / 4096 % 64 && 128 + n / 4096 % 64 < 192) = true := by
    simp only [Bool.and_eq_true, decide_eq_true_eq]
    omega
  have g2 : (128 ≤ 128 + n / 64 % 64 && 128 + n / 64 % 64 < 192) = true := by
    simp only [Bool.and_eq_true, decide_eq_true_eq]
    omega
  have g3 : (128 ≤ 128 + n % 64 && 128 + n % 64 < 192) = true := by
    simp only [Bool.and_eq_true, decide_eq_true_eq]
    omega
  have harg : (((240 + n / 262144 - 240) * 64 + (128 + n / 4096 % 64 - 128)) * 64 +
      (128 + n / 64 % 64 - 128)) * 64 + (128 + n % 64 - 128) = n := by omega
  rw [utf8DecodeStep, if_neg e1, if_neg e2, if_neg e3, if_neg e4, utf8Cont, if_pos g1,
    utf8Cont, if_pos g2, utf8Cont, if_pos g3, utf8Cont, harg]

theorem utf8DecodeLoop_encode (cs : List Char) :
    ∀ fuel, (listFlat utf8EncodeChar cs).length ≤ fuel →
      utf8DecodeLoop fuel (listFlat utf8EncodeChar cs) = some cs := by
  induction cs with
  | nil =>
    intro fuel _
    cases fuel <;> rfl
  | cons c rest ih =>
    intro fuel hfuel
    have hofn := Char.ofNat_toNat c
    have hlt := char_toNat_lt c
    rw [show listFlat utf8EncodeChar (c :: rest) =
      utf8EncodeChar c ++ listFlat utf8EncodeChar rest from rfl] at hfuel ⊢
    by_cases h1 : c.toNat < 128
    · rw [utf8EncodeChar_ascii c h1] at hfuel ⊢
      rw [List.length_append, List.length_singleton] at hfuel
      cases fuel with
      | zero => omega
      | succ f =>
        show utf8DecodeLoop (f + 1) (c.toNat :: listFlat utf8EncodeChar rest) = some (c :: rest)
        rw [utf8DecodeLoop, utf8DecodeStep_one _ h1]
        simp only [ih f (by omega), hofn]
        rfl
    · by_cases h2 : c.toNat < 2048
      · rw [utf8EncodeChar_two c h1 h2] at hfuel ⊢
        rw [List.length_append, List.length_cons, List.length_singleton] at hfuel
        cases fuel with
        | zero => omega
        | succ f =>
          show utf8DecodeLoop (f + 1) ((192 + c.toNat / 64) :: (128 + c.toNat % 64) ::
            listFlat utf8EncodeChar rest) = some (c :: rest)
          rw [utf8DecodeLoop, utf8DecodeStep_two _ (by omega) h2]
          simp only [ih f (by omega), hofn]
          rfl
      · by_cases h3 : c.toNat < 65536
        · rw [utf8EncodeChar_three c h2 h3] at hfuel ⊢
          rw [List.length_append, List.length_cons, List.length_cons,
            List.length_singleton] at hfuel
          cases fuel with
          | zero => omega
          | succ f =>
            show utf8DecodeLoop (f + 1) ((224 + c.toNat / 4096) :: (128 + c.toNat / 64 % 64) ::
              (128 + c.toNat % 64) :: listFlat utf8EncodeChar rest) = some (c :: rest)
            rw [utf8DecodeLoop, utf8DecodeStep_three _ (by omega) h3]
            simp only [ih f (by omega), hofn]
            rfl
        · rw [utf8EncodeChar_four c h3] at hfuel ⊢
          rw [List.length_append, List.length_cons, List.length_cons, List.length_cons,
            List.length_singleton] at hfuel
          cases fuel with
          | zero => omega
          | succ f =>
            show utf8DecodeLoop (f + 1) ((240 + c.toNat / 262144) ::
              (128 + c.toNat / 4096 % 64) :: (128 + c.toNat / 64 % 64) ::
              (128 + c.toNat % 64) :: listFlat utf8EncodeChar rest) = some (c :: rest)
            rw [utf8DecodeLoop, utf8DecodeStep_four _ (by omega) hlt]
            simp only [ih f (by omega), hofn]
            rfl

theorem utf8Decode_encode (cs : List Char) :
    utf8Decode (listFlat utf8EncodeChar cs) = some cs :=
  utf8DecodeLoop_encode cs _ le_rfl

theorem percentDecodeStep_safe (b : Nat) (hsafe : isUrlSafe b = true) (rest : List Char) :
    percentDecodeStep (Char.ofNat b :: rest) = some (b, rest) := by
  have hlt : b < 128 := isUrlSafe_lt_128 b hsafe
  have htn : (Char.ofNat b).toNat = b := charToNat_ofNat_small b (by omega)
  have hne : ¬ (Char.ofNat b = '%') := by
    intro hq
    have h37 : b = 37 := by
      have h := congrArg Char.toNat hq
      rw [htn] at h
      simpa using h
    rw [h37] at hsafe
    simp [isUrlSafe] at hsafe
  rw [percentDecodeStep, if_neg hne, htn]

theorem percentDecodeStep_escaped (b : Nat) (hb : b < 256) (rest : List Char) :
    percentDecodeStep ('%' :: hexUpperDigit (b / 16) :: hexUpperDigit (b % 16) :: rest) =
      some (b, rest) := by
  have hdm : 16 * (b / 16) + b % 16 = b := by omega
  rw [percentDecodeStep, if_pos rfl, percentUnescape,
    hexVal_hexUpperDigit (b / 16) (by omega), hexVal_hexUpperDigit (b % 16) (by omega)]
  simp [hdm]

theorem percentDecodeLoop_encode (bs : List Nat) (hb : ∀ b ∈ bs, b < 256) :
    ∀ fuel, (listFlat encodeByte bs).length ≤ fuel →
      percentDecodeLoop fuel (listFlat encodeByte bs) = some bs := by
  induction bs with
  | nil =>
    intro fuel _
    cases fuel <;> rfl
  | cons b rest ih =>
    intro fuel hfuel
    have hb0 : b < 256 := hb b (List.mem_cons_self b rest)
    have hrest : ∀ x ∈ rest, x < 256 := fun x hx => hb x (List.mem_cons_of_mem b hx)
    rw [show listFlat encodeByte (b :: rest) =
      encodeByte b ++ listFlat encodeByte rest from rfl] at hfuel ⊢
    by_cases hsafe : isUrlSafe b = true
    · rw [encodeByte_safe b hsafe] at hfuel ⊢
      rw [List.length_append, List.length_singleton] at hfuel
      cases fuel with
      | zero => omega
      | succ f =>
        show percentDecodeLoop (f + 1) (Char.ofNat b :: listFlat encodeByte rest) =
          some (b :: rest)
        rw [percentDecodeLoop, percentDecodeStep_safe b hsafe]
        simp only [ih hrest f (by omega)]
        rfl
    · have hesc : encodeByte b = ['%', hexUpperDigit (b / 16), hexUpperDigit (b % 16)] := by
        simp [encodeByte, hsafe]
      rw [hesc] at hfuel ⊢
      simp only [List.length_append, List.length_cons, List.length_nil] at hfuel
      cases fuel with
      | zero => omega
      | succ f =>
        show percentDecodeLoop (f + 1) ('%' :: hexUpperDigit (b / 16) ::
          hexUpperDigit (b % 16) :: listFlat encodeByte rest) = some (b :: rest)
        rw [percentDecodeLoop, percentDecodeStep_escaped b hb0]
        simp only [ih hrest f (by omega)]
        rfl

theorem percentDecode_encode (bs : List Nat) (hb : ∀ b ∈ bs, b < 256) :
    percentDecodeBytes (listFlat encodeByte bs) = some bs :=
  percentDecodeLoop_encode bs hb _ le_rfl

theorem utf8Encode_lt_256 (s : String) : ∀ b ∈ utf8Encode s, b < 256 := by
  intro b hbm
  obtain ⟨c, hcs, hbc⟩ := mem_listFlat.mp hbm
  exact utf8EncodeChar_lt_256 c b hbc

/-- Percent-decoding recovers the exact string given to the encoder. -/
theorem percent_roundtrip_string (s : String) :
    percentDecodeString (urlencode s) = some s := by
  obtain ⟨cs⟩ := s
  show (percentDecodeBytes (listFlat encodeByte (listFlat utf8EncodeChar cs))).bind
    (fun bs => (utf8Decode bs).map fun l => String.mk l) = some ⟨cs⟩
  rw [percentDecode_encode (listFlat utf8EncodeChar cs) (utf8Encode_lt_256 ⟨cs⟩)]
  show (utf8Decode (listFlat utf8EncodeChar cs)).map (fun l => String.mk l) = some ⟨cs⟩
  rw [utf8Decode_encode cs]
  rfl

/-- C7: a configured `default_image` appears percent-encoded in the `d=`
fragment, and standard percent-decoding recovers the original value
exactly. -/
theorem c7_default_image_roundtrip (g : Generator) (d : String)
    (h : g.default_image = some d) :
    "d=" ++ urlencode d ∈ g.queryFragments ∧
    percentDecodeString (urlencode d) = some d := by
  refine ⟨?_, percent_roundtrip_string d⟩
  rcases g with ⟨u, di, fd, sz, fe, rt⟩
  simp only at h
  subst h
  cases fd <;> cases sz <;> cases rt <;> simp [Generator.queryFragments]

/-- Witness for C7 at a value with a space and a slash. -/
theorem c7_default_image_roundtrip_witness :
    "d=" ++ urlencode "a b/c" ∈
      (Generator.default.set_default_image "a b/c").queryFragments ∧
    percentDecodeString (urlencode "a b/c") = some "a b/c" :=
  c7_default_image_roundtrip (Generator.default.set_default_image "a b/c") "a b/c" rfl

theorem encodeByte_chars :
    ∀ b < 256, ∀ c ∈ encodeByte b, c ≠ '&' ∧ c ≠ '=' ∧ c ≠ '?' := by
  decide

/-- Characters of any encoded value avoid the query delimiters. -/
theorem urlencode_no_delimiters (s : String) :
    ∀ c ∈ (urlencode s).data, c ≠ '&' ∧ c ≠ '=' ∧ c ≠ '?' := by
  intro c hc
  obtain ⟨b, hbm, hcb⟩ := mem_listFlat.mp hc
  obtain ⟨ch, hch, hbch⟩ := mem_listFlat.mp hbm
  exact encodeByte_chars b (utf8EncodeChar_lt_256 ch b hbch) c hcb

/-- C10: every percent-encoded value emitted into the query string (the
encodings of `default_image`, `image_size` and `rating`) contains none of
`&`, `=`, `?`, and every byte outside the unescaped set is escaped, so the
query string splits back unambiguously. -/
theorem c10_encoded_values_unambiguous (g : Generator) (v : String)
    (h : (∃ d, g.default_image = some d ∧ v = urlencode d) ∨
         (∃ n, g.image_size = some n ∧ v = urlencode (intDec n)) ∨
         (∃ r, g.rating = some r ∧ v = urlencode r)) :
    (∀ c ∈ v.data, c ≠ '&' ∧ c ≠ '=' ∧ c ≠ '?') ∧
    (∀ b, b < 256 → isUrlSafe b = false →
      encodeByte b = ['%', hexUpperDigit (b / 16), hexUpperDigit (b % 16)]) := by
  refine ⟨?_, fun b _ hfalse => by simp [encodeByte, hfalse]⟩
  rcases h with ⟨d, _, rfl⟩ | ⟨n, _, rfl⟩ | ⟨r, _, rfl⟩ <;>
    exact urlencode_no_delimiters _

/-- Witness for C10 on a value whose encoding contains an escape. -/
theorem c10_encoded_values_unambiguous_witness :
    ('%' ≠ '&' ∧ '%' ≠ '=' ∧ '%' ≠ '?') ∧
    encodeByte 47 = ['%', hexUpperDigit 2, hexUpperDigit 15] :=
  ⟨(c10_encoded_values_unambiguous (Generator.default.set_default_image "a/b")
      (urlencode "a/b") (Or.inl ⟨"a/b", rfl, rfl⟩)).1 '%' (by decide),
   (c10_encoded_values_unambiguous (Generator.default.set_default_image "a/b")
      (urlencode "a/b") (Or.inl ⟨"a/b", rfl, rfl⟩)).2 47 (by decide) (by decide)⟩
